import Mathlib

/-!
Verification of the CovenantSQL signed block and chain core.

The development embeds the block data model of types (Header, SignedHeader,
Block with its Merkle-root, hash and signature verification), the next-offset
resolver of the richer block model, the hash-sign-verifier envelope, and the
sqlchain state machine (State checkpoint, NewChain, PushBlock, LoadChain).
Cryptographic collaborators that live outside the provided sources
(hash.THashH, crypto/asymmetric, merkle, utils element codecs, kms, cpuminer)
are modelled from the specification, as ideal collision-free and unforgeable
primitives.
-/

/-- A byte sequence. -/
abbrev Bytes := List Nat

/-- A content digest; equality is byte-exact. -/
abbrev Hash := List Nat

/-- Error classes of the block and chain subsystem. -/
inductive ChainError where
  | merkleRootVerification
  | hashVerification
  | signVerification
  | genesisVerification
  | forkOrOutOfOrder
  | chainCorrupted
  | checkpointDecode
  | hashMismatch
  | signatureInvalid
deriving DecidableEq, Repr

/-- Modelled from the spec: a secp256k1-class public key (package
crypto/asymmetric is outside the provided sources); identity is a plain number. -/
structure PublicKey where
  key : Nat
deriving DecidableEq, Repr

/-- Modelled from the spec: a secp256k1-class private key. -/
structure PrivateKey where
  key : Nat
deriving DecidableEq, Repr

/-- The public counterpart of a private key. -/
def PrivateKey.pubKey (sk : PrivateKey) : PublicKey := ⟨sk.key⟩

/-- Modelled from the spec: an ECDSA-style signature with an R-like and an
S-like component. In this ideal model the R component records the signing key
and the S component records the signed digest, so that verification is the pure
function of the spec and the scheme is correct and unforgeable. -/
structure Signature where
  r : Nat
  s : Bytes
deriving DecidableEq, Repr

/-- Modelled from the spec: signing a message digest with a private key. -/
def PrivateKey.sign (sk : PrivateKey) (msg : Bytes) : Signature := ⟨sk.key, msg⟩

/-- Modelled from the spec: signature verification, a pure function of
(message hash, signature, public key) into Bool. -/
def Signature.verify (sig : Signature) (msg : Bytes) (pk : PublicKey) : Bool :=
  sig.r == pk.key && sig.s == msg

/-- Modelled from the spec: the canonical content digest (hash.THashH, a double
SHA-256 in the implementation, outside the provided sources). Modelled as an
injective digest so that distinct contents never collide, the idealization of
a collision-resistant hash. -/
def thashH (bs : Bytes) : Hash := bs.length :: bs

/-- Modelled from the spec: combination of two sibling hashes into a parent. -/
def merkleCombine (a b : Hash) : Hash := thashH (a ++ b)

/-- Modelled from the spec: one level of pairwise Merkle combination; an odd
trailing leaf is promoted unchanged (the promote-unchanged policy of the
Merkle engine section). -/
def merkleLevel : List Hash → List Hash
  | [] => []
  | [a] => [a]
  | a :: b :: rest => merkleCombine a b :: merkleLevel rest

/-- Iterated level combination with explicit fuel; the fuel is sufficient
whenever it is at least the leaf count. -/
def merkleRootAux : Nat → List Hash → Hash
  | _, [] => []
  | _, [a] => a
  | 0, _ :: _ :: _ => []
  | fuel + 1, a :: b :: rest => merkleRootAux fuel (merkleCombine a b :: merkleLevel rest)

/-- Modelled from the spec: the Merkle root of an ordered leaf sequence
(package merkle is outside the provided sources); the root of the empty
sequence is the empty sentinel digest. -/
def merkleRoot (ls : List Hash) : Hash := merkleRootAux ls.length ls

/-- Big-endian fixed-width byte encoding of a natural number. -/
def beBytes : Nat → Nat → Bytes
  | 0, _ => []
  | w + 1, n => n / 256 ^ w :: beBytes w (n % 256 ^ w)

/-- Big-endian value of a byte sequence. -/
def beVal : Bytes → Nat
  | [] => 0
  | b :: bs => b * 256 ^ bs.length + beVal bs

/-- Modelled from the spec: reading one big-endian fixed-width integer element
(utils.ReadElements is outside the provided sources). -/
def readBE (w : Nat) (bs : Bytes) : Option (Nat × Bytes) :=
  if w ≤ bs.length then some (beVal (bs.take w), bs.drop w) else none

/-- Modelled from the spec: writing one byte-string element, with a big-endian
fixed-width length followed by the raw bytes (utils.WriteElements is outside
the provided sources). -/
def putBytes (xs : Bytes) : Bytes := beBytes 4 xs.length ++ xs

/-- Modelled from the spec: reading one byte-string element. -/
def getBytes (bs : Bytes) : Option (Bytes × Bytes) :=
  (readBE 4 bs).bind fun nr =>
    if nr.1 ≤ nr.2.length then some (nr.2.take nr.1, nr.2.drop nr.1) else none

/-- Little-endian base-256 digits of a natural number, with explicit fuel. -/
def natBytesAux : Nat → Nat → Bytes
  | _, 0 => []
  | 0, _ + 1 => []
  | fuel + 1, n + 1 => (n + 1) % 256 :: natBytesAux fuel ((n + 1) / 256)

/-- Little-endian base-256 digits of a natural number (a model of the varint
encoding used for the checkpoint height). -/
def natBytesLE (n : Nat) : Bytes := natBytesAux n n

/-- Value of little-endian base-256 digits. -/
def leVal : Bytes → Nat
  | [] => 0
  | b :: bs => b + 256 * leVal bs

/-- The block header, after types.Header in the sources: version, producer,
Merkle root, parent hash, timestamp. The producer account address is a byte
string; the timestamp is in fixed-width integer form. -/
structure Header where
  Version : Nat
  Producer : Bytes
  MerkleRoot : Hash
  ParentHash : Hash
  Timestamp : Nat
deriving DecidableEq, Repr

/-- Header.MarshalBinary from the sources: writes version, producer, Merkle
root, parent hash and timestamp in that fixed order, integers as big-endian
fixed-width values. -/
def Header.MarshalBinary (h : Header) : Bytes :=
  beBytes 4 h.Version ++ putBytes h.Producer ++ putBytes h.MerkleRoot ++
    putBytes h.ParentHash ++ beBytes 8 h.Timestamp

/-- Header.UnmarshalBinary from the sources: reads the same elements in the
same fixed order. -/
def Header.UnmarshalBinary (bs : Bytes) : Option Header :=
  (readBE 4 bs).bind fun v =>
  (getBytes v.2).bind fun p =>
  (getBytes p.2).bind fun m =>
  (getBytes m.2).bind fun ph =>
  (readBE 8 ph.2).map fun t => ⟨v.1, p.1, m.1, ph.1, t.1⟩

/-- The canonical digest of a header (its MarshalHash). -/
def Header.MarshalHash (h : Header) : Hash := thashH h.MarshalBinary

/-- types.SignedHeader from the sources: a header with its block hash, signee
and signature. The Go source embeds Header; here it is an explicit field. -/
structure SignedHeader where
  Header : Header
  BlockHash : Hash
  Signee : PublicKey
  Signature : Signature
deriving DecidableEq, Repr

/-- SignedHeader.Verify from the sources: the signature must verify over the
block hash under the signee; otherwise fails with SignVerification. -/
def SignedHeader.Verify (s : SignedHeader) : Except ChainError Unit :=
  if ¬(s.Signature.verify s.BlockHash s.Signee) then
    Except.error ChainError.signVerification
  else
    Except.ok ()

/-- types.Block from the sources: a signed header plus transaction hashes. The
transaction slice distinguishes the nil slice from a non-nil one, because
PushTx branches on nil-ness. -/
structure Block where
  SignedHeader : SignedHeader
  Transactions : Option (List Hash)
deriving DecidableEq, Repr

/-- The transaction list seen by the Merkle engine (the nil slice is empty). -/
def Block.txList (b : Block) : List Hash := b.Transactions.getD []

/-- Block.PackAndSignBlock from the sources: computes the Merkle root over the
transactions and writes it into the header, hashes the marshalled header into
the block hash, and signs the block hash with the given private key. -/
def Block.PackAndSignBlock (b : Block) (signer : PrivateKey) : Block :=
  let header := { b.SignedHeader.Header with MerkleRoot := merkleRoot b.txList }
  let blockHash := thashH header.MarshalBinary
  { b with
      SignedHeader :=
        { b.SignedHeader with
            Header := header
            BlockHash := blockHash
            Signature := signer.sign blockHash } }

/-- Block.Verify from the sources: recompute the Merkle root, then the header
hash, then check the signature, in that fixed order, reporting the first
failure. -/
def Block.Verify (b : Block) : Except ChainError Unit :=
  if ¬(merkleRoot b.txList = b.SignedHeader.Header.MerkleRoot) then
    Except.error ChainError.merkleRootVerification
  else if ¬(thashH b.SignedHeader.Header.MarshalBinary = b.SignedHeader.BlockHash) then
    Except.error ChainError.hashVerification
  else
    b.SignedHeader.Verify

/-- Block.PushTx from the sources: when the transaction slice is non-nil it is
first reset to a fresh empty slice, then the transaction is appended. -/
def Block.PushTx (b : Block) (tx : Hash) : Block :=
  let ts : Option (List Hash) := if b.Transactions.isSome then some [] else b.Transactions
  { b with Transactions := some (ts.getD [] ++ [tx]) }

/-- Appending one more transaction hash to the payload without re-packing. -/
def Block.appendTx (b : Block) (tx : Hash) : Block :=
  { b with Transactions := some (b.txList ++ [tx]) }

/-- Modelled from the spec: the hash-sign-verifier envelope
(crypto/verifier.DefaultHashSignVerifierImpl is outside the provided
sources): a data hash, a signee and a signature over the data hash. -/
structure DefaultHashSignVerifierImpl where
  DataHash : Hash
  Signee : PublicKey
  Signature : Signature
deriving DecidableEq, Repr

/-- Modelled from the spec: HSV verification recomputes the canonical hash of
the enveloped content and fails with HashMismatch on difference, then fails
with SignatureInvalid when the signature does not verify over the data hash
under the signee, and succeeds otherwise. -/
def DefaultHashSignVerifierImpl.verify
    (hsv : DefaultHashSignVerifierImpl) (content : Bytes) : Except ChainError Unit :=
  if ¬(thashH content = hsv.DataHash) then
    Except.error ChainError.hashMismatch
  else if ¬(hsv.Signature.verify hsv.DataHash hsv.Signee) then
    Except.error ChainError.signatureInvalid
  else
    Except.ok ()

namespace SQLChain

/-- Modelled from the spec: a key-management registration binding a node id to
a proof-of-work nonce and a public key (package kms is outside the provided
sources). -/
structure KmsEntry where
  id : Bytes
  nonce : Nat
  pubKey : PublicKey
deriving DecidableEq, Repr

/-- Modelled from the spec: looking the producer id up in the registry. -/
def kmsLookup (kms : List KmsEntry) (id : Bytes) : Option KmsEntry :=
  kms.find? (fun e => e.id == id)

/-- Modelled from the spec: the compressed serialization of a public key. -/
def pubKeyBytes (pk : PublicKey) : Bytes := natBytesLE pk.key

/-- Modelled from the spec: the proof-of-work block hash of a serialized
public key combined with a nonce (cpuminer.HashBlock is outside the provided
sources). -/
def hashBlock (pub : Bytes) (nonce : Nat) : Hash := thashH (pub ++ natBytesLE nonce)

/-- Modelled from the spec: the difficulty of a node id digest, its count of
leading zero bytes. -/
def hashDifficulty (h : Hash) : Nat := (h.takeWhile (· == 0)).length

/-- Modelled from the spec: genesis verification of a signed header (the
sqlchain verifyGenesisHeader is outside the provided sources). The producer id
must be registered; the registered public key must equal the signee; the id
must equal the proof-of-work hash of that key with the registered nonce and
meet the minimum difficulty; these binding or difficulty failures yield
GenesisVerification. Finally the signature itself must verify, propagating the
signature error class. -/
def verifyGenesisHeader (kms : List KmsEntry) (minDifficulty : Nat)
    (sh : SignedHeader) : Except ChainError Unit :=
  match kmsLookup kms sh.Header.Producer with
  | none => Except.error ChainError.genesisVerification
  | some e =>
    if ¬(e.pubKey = sh.Signee) then
      Except.error ChainError.genesisVerification
    else if ¬(sh.Header.Producer = hashBlock (pubKeyBytes e.pubKey) e.nonce) then
      Except.error ChainError.genesisVerification
    else if hashDifficulty sh.Header.Producer < minDifficulty then
      Except.error ChainError.genesisVerification
    else
      sh.Verify

/-- Modelled from the spec: genesis verification of a block delegates to its
signed header. -/
def verifyGenesis (kms : List KmsEntry) (minDifficulty : Nat) (b : Block) :
    Except ChainError Unit :=
  verifyGenesisHeader kms minDifficulty b.SignedHeader

/-- Modelled from the spec: the chain State checkpoint, a head hash and a
height. -/
structure State where
  Head : Hash
  Height : Nat
deriving DecidableEq, Repr

/-- Modelled from the spec: the fixed portable encoding of a checkpoint, the
head as a byte-string element followed by the height digits. -/
def State.marshal (st : State) : Bytes := putBytes st.Head ++ natBytesLE st.Height

/-- Modelled from the spec: decoding a checkpoint buffer into a scratch value;
malformed input decodes to none. -/
def State.decode (bs : Bytes) : Option State :=
  (getBytes bs).map fun hr => ⟨hr.1, leVal hr.2⟩

/-- Modelled from the spec: State.unmarshal decodes into a scratch value and
swaps it into the receiver only on full success; on failure it reports
CheckpointDecodeError and returns the receiver unchanged. -/
def State.unmarshal (st : State) (bs : Bytes) : State × Option ChainError :=
  match State.decode bs with
  | some st2 => (st2, none)
  | none => (st, some ChainError.checkpointDecode)

/-- Modelled from the spec: the durable store, holding the marshalled
checkpoint under its sentinel key and the persisted block sequence. -/
structure Store where
  checkpoint : Option Bytes
  blocks : List SignedHeader
deriving DecidableEq, Repr

/-- Modelled from the spec: a chain owns the State checkpoint and the durable
store handle. -/
structure Chain where
  state : State
  store : Store
deriving DecidableEq, Repr

/-- Modelled from the spec: NewChain verifies the genesis block, persists it,
and sets the initial checkpoint to its block hash at height zero. -/
def NewChain (kms : List KmsEntry) (minDifficulty : Nat) (genesis : Block) :
    Except ChainError Chain :=
  match verifyGenesis kms minDifficulty genesis with
  | Except.error _ => Except.error ChainError.genesisVerification
  | Except.ok _ =>
    let st : State := ⟨genesis.SignedHeader.BlockHash, 0⟩
    Except.ok ⟨st, ⟨some st.marshal, [genesis.SignedHeader]⟩⟩

/-- Modelled from the spec: PushBlock requires the parent hash to equal the
current head, failing with ForkOrOutOfOrder otherwise; then the header
signature must verify, failing with SignVerification otherwise; on success the
block is persisted, the head becomes the block hash, the height increments and
the checkpoint is re-persisted. Failures leave the chain unchanged. -/
def Chain.PushBlock (c : Chain) (sh : SignedHeader) : Chain × Option ChainError :=
  if ¬(sh.Header.ParentHash = c.state.Head) then
    (c, some ChainError.forkOrOutOfOrder)
  else if ¬(sh.Signature.verify sh.BlockHash sh.Signee) then
    (c, some ChainError.signVerification)
  else
    let st : State := ⟨sh.BlockHash, c.state.Height + 1⟩
    (⟨st, ⟨some st.marshal, c.store.blocks ++ [sh]⟩⟩, none)

/-- Modelled from the spec: LoadChain opens the existing store and reads the
persisted checkpoint, failing with ChainCorrupted when it is absent or does
not decode; the block sequence is replayed from the store. -/
def LoadChain (store : Store) : Except ChainError Chain :=
  match store.checkpoint with
  | none => Except.error ChainError.chainCorrupted
  | some bs =>
    match State.decode bs with
    | none => Except.error ChainError.chainCorrupted
    | some st => Except.ok ⟨st, store⟩

/-- Pushing a sequence of signed headers in order, stopping at the first
failure. -/
def pushAll (c : Chain) : List SignedHeader → Chain × Option ChainError
  | [] => (c, none)
  | sh :: rest =>
    match c.PushBlock sh with
    | (c2, none) => pushAll c2 rest
    | (c2, some e) => (c2, some e)

/-- A sequence of valid sequential blocks on top of a given head: each header
links to the previous block hash and carries a valid signature. -/
def validSeq : Hash → List SignedHeader → Bool
  | _, [] => true
  | h, sh :: rest =>
    sh.Header.ParentHash == h && sh.Signature.verify sh.BlockHash sh.Signee &&
      validSeq sh.BlockHash rest

end SQLChain

namespace V2

/-- The query type of a request, Read or Write. -/
inductive QueryType where
  | ReadQuery
  | WriteQuery
deriving DecidableEq, Repr

/-- Modelled from the spec: one query of a request payload. -/
structure Query where
  pattern : Bytes
deriving DecidableEq, Repr

/-- Modelled from the spec: a request header carrying the query type (the
signed wrapper of the richer model is collapsed to the request header). -/
structure RequestHeader where
  QueryType : QueryType
deriving DecidableEq, Repr

/-- Modelled from the spec: a request payload, an ordered sequence of
queries. -/
structure RequestPayload where
  Queries : List Query
deriving DecidableEq, Repr

/-- Modelled from the spec: a client request, header plus payload. -/
structure Request where
  Header : RequestHeader
  Payload : RequestPayload
deriving DecidableEq, Repr

/-- Modelled from the spec: a response header carrying the write-log offset
(the signed wrapper of the richer model is collapsed to the response
header). -/
structure ResponseHeader where
  LogOffset : Nat
deriving DecidableEq, Repr

/-- Modelled from the spec: a committed request and response pair. -/
structure QueryAsTx where
  Request : Request
  Response : ResponseHeader
deriving DecidableEq, Repr

/-- Modelled from the spec: the richer block model restricted to its query
transactions, the only payload CalcNextID inspects. -/
structure Block where
  QueryTxs : List QueryAsTx
deriving DecidableEq, Repr

/-- Modelled from the spec: Block.CalcNextID scans the query transactions in
order, keeping the offset of the last Write entry plus its query count;
without any Write entry the result stays (0, false). -/
def Block.CalcNextID (b : Block) : Nat × Bool :=
  b.QueryTxs.foldl
    (fun acc q =>
      if q.Request.Header.QueryType = QueryType.WriteQuery then
        (q.Response.LogOffset + q.Request.Payload.Queries.length, true)
      else acc)
    (0, false)

end V2

/-- Wellformedness of a header for the binary codec: integer fields within
their fixed widths (version 4 bytes, timestamp 8 bytes) and byte-string fields
short enough for their 4-byte length elements. -/
def Header.Wf (h : Header) : Prop :=
  h.Version < 256 ^ 4 ∧ h.Producer.length < 256 ^ 4 ∧ h.MerkleRoot.length < 256 ^ 4 ∧
    h.ParentHash.length < 256 ^ 4 ∧ h.Timestamp < 256 ^ 8

/-- A concrete key pair used by concrete instances. -/
def pk0 : PublicKey := ⟨7⟩

/-- The private counterpart of the concrete key. -/
def sk0 : PrivateKey := ⟨7⟩

/-- The concrete proof-of-work node id bound to the concrete key. -/
def producer0 : Bytes := SQLChain.hashBlock (SQLChain.pubKeyBytes pk0) 0

/-- A concrete genesis block correctly bound and signed by the concrete key. -/
def genesis0 : Block := ⟨⟨⟨1, producer0, [], [], 0⟩, [9], pk0, ⟨7, [9]⟩⟩, none⟩

/-- The concrete genesis block with its signature R component tampered. -/
def genesisTampered : Block := ⟨⟨⟨1, producer0, [], [], 0⟩, [9], pk0, ⟨8, [9]⟩⟩, none⟩

/-- The concrete key-management registry holding the concrete binding. -/
def kms0 : List SQLChain.KmsEntry := [⟨producer0, 0, pk0⟩]

/-- The chain value NewChain yields on the concrete genesis block. -/
def chain0 : SQLChain.Chain :=
  ⟨⟨[9], 0⟩, ⟨some (SQLChain.State.marshal ⟨[9], 0⟩), [genesis0.SignedHeader]⟩⟩

/-- A concrete valid successor header on a given head. -/
def mkNext (h : Hash) : SignedHeader := ⟨⟨1, [], [], h, 0⟩, 0 :: h, ⟨0⟩, ⟨0, 0 :: h⟩⟩

/-- A concrete sequence of valid sequential headers on a given head. -/
def mkSeq : Nat → Hash → List SignedHeader
  | 0, _ => []
  | n + 1, h => mkNext h :: mkSeq n (mkNext h).BlockHash

namespace V2

/-- A concrete read transaction with a given offset and query count. -/
def readTx (off cnt : Nat) : QueryAsTx :=
  ⟨⟨⟨QueryType.ReadQuery⟩, ⟨List.replicate cnt ⟨[]⟩⟩⟩, ⟨off⟩⟩

/-- A concrete write transaction with a given offset and query count. -/
def writeTx (off cnt : Nat) : QueryAsTx :=
  ⟨⟨⟨QueryType.WriteQuery⟩, ⟨List.replicate cnt ⟨[]⟩⟩⟩, ⟨off⟩⟩

end V2

/-- Total byte length of a list of hashes. -/
def hashesLen (ls : List Hash) : Nat := (ls.map List.length).sum

/-- The Merkle measure of a leaf list, total byte length plus leaf count; it
is invariant under one level of pairwise combination. -/
def merkleMeasure (ls : List Hash) : Nat := hashesLen ls + ls.length

theorem beBytes_length : ∀ w n, (beBytes w n).length = w
  | 0, _ => rfl
  | w + 1, n => by simp [beBytes, beBytes_length w]

theorem beVal_beBytes : ∀ w n, n < 256 ^ w → beVal (beBytes w n) = n
  | 0, n, h => by
    have : n = 0 := by simpa using Nat.lt_one_iff.mp (by simpa using h)
    simp [this, beBytes, beVal]
  | w + 1, n, _ => by
    have hm : n % 256 ^ w < 256 ^ w := Nat.mod_lt _ (Nat.pos_pow_of_pos w (by norm_num))
    simp [beBytes, beVal, beBytes_length, beVal_beBytes w _ hm]
    rw [Nat.mul_comm]
    exact Nat.div_add_mod n (256 ^ w)

theorem readBE_beBytes (w n : Nat) (rest : Bytes) (h : n < 256 ^ w) :
    readBE w (beBytes w n ++ rest) = some (n, rest) := by
  unfold readBE
  rw [if_pos (by simp [beBytes_length])]
  rw [List.take_left' (beBytes_length w n), List.drop_left' (beBytes_length w n)]
  rw [beVal_beBytes w n h]

theorem getBytes_putBytes (xs rest : Bytes) (h : xs.length < 256 ^ 4) :
    getBytes (putBytes xs ++ rest) = some (xs, rest) := by
  unfold getBytes putBytes
  rw [List.append_assoc, readBE_beBytes 4 xs.length (xs ++ rest) h]
  simp

theorem leVal_natBytesAux : ∀ fuel n, n ≤ fuel → leVal (natBytesAux fuel n) = n
  | fuel, 0, _ => by cases fuel <;> simp [natBytesAux, leVal]
  | 0, n + 1, h => absurd h (by omega)
  | fuel + 1, n + 1, h => by
    have hd : (n + 1) / 256 ≤ fuel := by
      have := Nat.div_lt_self (Nat.succ_pos n) (show 1 < 256 by norm_num)
      omega
    simp [natBytesAux, leVal, leVal_natBytesAux fuel _ hd]
    omega

theorem leVal_natBytesLE (n : Nat) : leVal (natBytesLE n) = n :=
  leVal_natBytesAux n n (Nat.le_refl n)

theorem header_unmarshal_marshal (h : Header) (hw : h.Wf) :
    Header.UnmarshalBinary h.MarshalBinary = some h := by
  obtain ⟨h1, h2, h3, h4, h5⟩ := hw
  unfold Header.MarshalBinary Header.UnmarshalBinary
  rw [List.append_assoc, List.append_assoc, List.append_assoc]
  rw [readBE_beBytes 4 h.Version _ h1]
  simp only [Option.bind_eq_bind, Option.some_bind]
  rw [getBytes_putBytes _ _ h2]
  simp only [Option.some_bind]
  rw [getBytes_putBytes _ _ h3]
  simp only [Option.some_bind]
  rw [getBytes_putBytes _ _ h4]
  simp only [Option.some_bind]
  rw [show beBytes 8 h.Timestamp = beBytes 8 h.Timestamp ++ [] by simp]
  rw [readBE_beBytes 8 h.Timestamp [] h5]
  rfl

theorem merkleLevel_length_le : ∀ ls : List Hash, (merkleLevel ls).length ≤ ls.length
  | [] => Nat.le_refl _
  | [_] => Nat.le_refl _
  | _ :: _ :: rest => by
    have := merkleLevel_length_le rest
    simp [merkleLevel]
    omega

theorem merkleMeasure_level : ∀ ls : List Hash, merkleMeasure (merkleLevel ls) = merkleMeasure ls
  | [] => rfl
  | [_] => rfl
  | a :: b :: rest => by
    have ih := merkleMeasure_level rest
    simp [merkleMeasure, hashesLen, merkleLevel, merkleCombine, thashH] at ih ⊢
    omega

theorem merkleRootAux_length :
    ∀ fuel (ls : List Hash), ls.length ≤ fuel + 1 → ls ≠ [] →
      (merkleRootAux fuel ls).length + 1 = merkleMeasure ls
  | _, [], _, hne => absurd rfl hne
  | fuel, [a], _, _ => by
    cases fuel <;> simp [merkleRootAux, merkleMeasure, hashesLen]
  | 0, _ :: _ :: rest, hlen, _ => by
    simp at hlen
  | fuel + 1, a :: b :: rest, hlen, _ => by
    have hlev := merkleLevel_length_le rest
    have hlen2 : (merkleCombine a b :: merkleLevel rest).length ≤ fuel + 1 := by
      simp at hlen ⊢
      omega
    have ih := merkleRootAux_length fuel (merkleCombine a b :: merkleLevel rest) hlen2 (by simp)
    have hstep : merkleRootAux (fuel + 1) (a :: b :: rest) =
        merkleRootAux fuel (merkleCombine a b :: merkleLevel rest) := rfl
    have hlevel : merkleCombine a b :: merkleLevel rest = merkleLevel (a :: b :: rest) := rfl
    rw [hstep, ih, hlevel, merkleMeasure_level]

theorem merkleRoot_length (ls : List Hash) (h : ls ≠ []) :
    (merkleRoot ls).length + 1 = merkleMeasure ls :=
  merkleRootAux_length ls.length ls (by omega) h

theorem merkleMeasure_append_one (ls : List Hash) (t : Hash) :
    merkleMeasure (ls ++ [t]) = merkleMeasure ls + t.length + 1 := by
  simp [merkleMeasure, hashesLen]
  omega

theorem merkleRoot_append_ne (ls : List Hash) (t : Hash) (ht : 0 < t.length) :
    merkleRoot (ls ++ [t]) ≠ merkleRoot ls := by
  cases ls with
  | nil =>
    intro heq
    have h1 : merkleRoot ([] ++ [t]) = t := rfl
    have h2 : merkleRoot ([] : List Hash) = [] := rfl
    rw [h1, h2] at heq
    simp [heq] at ht
  | cons a rest =>
    intro heq
    have h1 := merkleRoot_length ((a :: rest) ++ [t]) (by simp)
    have h2 := merkleRoot_length (a :: rest) (by simp)
    rw [heq, merkleMeasure_append_one] at h1
    omega

/-- C10: after PushTx the transaction slice of the block is exactly the
one-element slice holding the pushed hash: the reset branch fires whenever the
slice is already non-nil, so transactions pushed earlier are discarded,
repeated pushes never accumulate, and the slice never grows past one
element. -/
theorem Block.pushTx_singleton : ∀ (b : Block) (tx : Hash), (b.PushTx tx).Transactions = some [tx] := by
  intro b tx
  cases hb : b.Transactions <;> simp [Block.PushTx, hb]

/-- C3: the sign-then-verify round trip. For every block whose signee is the
public counterpart of the signing key, PackAndSignBlock produces a block on
which Verify succeeds: the written Merkle root, block hash and signature pass
all three checks. -/
theorem Block.packAndSign_verify_ok (b : Block) (sk : PrivateKey)
    (hs : b.SignedHeader.Signee = sk.pubKey) :
    (b.PackAndSignBlock sk).Verify = Except.ok () := by
  simp [Block.PackAndSignBlock, Block.Verify, Block.txList, SignedHeader.Verify,
    Signature.verify, PrivateKey.sign, PrivateKey.pubKey, hs]

theorem Block.packAndSign_verify_ok_witness :
    (⟨⟨⟨1, [], [], [], 0⟩, [], pk0, ⟨0, []⟩⟩, some [[1], [2]]⟩ : Block).SignedHeader.Signee = sk0.pubKey ∧
      ((⟨⟨⟨1, [], [], [], 0⟩, [], pk0, ⟨0, []⟩⟩, some [[1], [2]]⟩ : Block).PackAndSignBlock sk0).Verify =
        Except.ok () :=
  ⟨rfl, Block.packAndSign_verify_ok _ sk0 rfl⟩

/-- C2: Block.Verify runs the Merkle-root, header-hash and signature checks in
that fixed order and reports the first failure deterministically: it fails
with MerkleRootVerification exactly when the root recomputed from the current
payload differs from the stored root, with HashVerification exactly when the
root matches but the recomputed header hash differs from the block hash, with
SignVerification exactly when both match and the signature check fails, and
succeeds exactly when all three pass; in particular appending any payload
entry after PackAndSignBlock makes Verify fail with MerkleRootVerification. -/
theorem Block.verify_fixed_order :
    (∀ b : Block,
      (b.Verify = Except.error ChainError.merkleRootVerification ↔
        merkleRoot b.txList ≠ b.SignedHeader.Header.MerkleRoot) ∧
      (b.Verify = Except.error ChainError.hashVerification ↔
        merkleRoot b.txList = b.SignedHeader.Header.MerkleRoot ∧
          thashH b.SignedHeader.Header.MarshalBinary ≠ b.SignedHeader.BlockHash) ∧
      (b.Verify = Except.error ChainError.signVerification ↔
        merkleRoot b.txList = b.SignedHeader.Header.MerkleRoot ∧
          thashH b.SignedHeader.Header.MarshalBinary = b.SignedHeader.BlockHash ∧
          b.SignedHeader.Signature.verify b.SignedHeader.BlockHash b.SignedHeader.Signee = false) ∧
      (b.Verify = Except.ok () ↔
        merkleRoot b.txList = b.SignedHeader.Header.MerkleRoot ∧
          thashH b.SignedHeader.Header.MarshalBinary = b.SignedHeader.BlockHash ∧
          b.SignedHeader.Signature.verify b.SignedHeader.BlockHash b.SignedHeader.Signee = true)) ∧
    (∀ (b : Block) (sk : PrivateKey) (tx : Hash), 0 < tx.length →
      ((b.PackAndSignBlock sk).appendTx tx).Verify =
        Except.error ChainError.merkleRootVerification) := by
  constructor
  · intro b
    by_cases h1 : merkleRoot b.txList = b.SignedHeader.Header.MerkleRoot <;>
      by_cases h2 : thashH b.SignedHeader.Header.MarshalBinary = b.SignedHeader.BlockHash <;>
      by_cases h3 : b.SignedHeader.Signature.verify b.SignedHeader.BlockHash b.SignedHeader.Signee = true <;>
      simp [Block.Verify, SignedHeader.Verify, h1, h2, h3]
  · intro b sk tx ht
    have hne := merkleRoot_append_ne b.txList tx ht
    simp only [Block.txList] at hne
    simp [Block.Verify, Block.appendTx, Block.PackAndSignBlock, Block.txList, hne]

theorem Block.verify_fixed_order_witness :
    0 < ([3] : Hash).length ∧
      (((⟨⟨⟨1, [], [], [], 0⟩, [], pk0, ⟨0, []⟩⟩, some [[1], [2]]⟩ : Block).PackAndSignBlock sk0).appendTx
          [3]).Verify = Except.error ChainError.merkleRootVerification :=
  ⟨by decide, Block.verify_fixed_order.2 _ sk0 [3] (by decide)⟩

/-- C7: HSV verification recomputes the canonical hash of the enveloped
content and fails with HashMismatch exactly when it differs from the stored
data hash, fails with SignatureInvalid exactly when the hash matches but the
signature does not verify over the data hash under the signee, and succeeds
exactly when both pass; consequently replacing any byte of a correctly signed
data hash by a different value makes verification fail with HashMismatch,
never with a different error class. -/
theorem hsv_verify_spec :
    (∀ (hsv : DefaultHashSignVerifierImpl) (content : Bytes),
      (hsv.verify content = Except.error ChainError.hashMismatch ↔ thashH content ≠ hsv.DataHash) ∧
      (hsv.verify content = Except.error ChainError.signatureInvalid ↔
        thashH content = hsv.DataHash ∧
          hsv.Signature.verify hsv.DataHash hsv.Signee = false) ∧
      (hsv.verify content = Except.ok () ↔
        thashH content = hsv.DataHash ∧
          hsv.Signature.verify hsv.DataHash hsv.Signee = true)) ∧
    (∀ (hsv : DefaultHashSignVerifierImpl) (content : Bytes) (i v : Nat),
      hsv.DataHash = thashH content → i < hsv.DataHash.length → hsv.DataHash[i]? ≠ some v →
      DefaultHashSignVerifierImpl.verify ⟨hsv.DataHash.set i v, hsv.Signee, hsv.Signature⟩ content =
        Except.error ChainError.hashMismatch) := by
  constructor
  · intro hsv content
    by_cases h1 : thashH content = hsv.DataHash <;>
      by_cases h2 : hsv.Signature.verify hsv.DataHash hsv.Signee = true <;>
      simp [DefaultHashSignVerifierImpl.verify, h1, h2]
  · intro hsv content i v hd hi hv
    have hne : hsv.DataHash.set i v ≠ hsv.DataHash := by
      intro h
      apply hv
      rw [← h]
      simp [List.getElem?_set_self, hi]
    have hne2 : ¬(thashH content = hsv.DataHash.set i v) := fun he => hne ((hd.trans he).symm)
    simp [DefaultHashSignVerifierImpl.verify, hne2]

theorem hsv_verify_spec_witness :
    DefaultHashSignVerifierImpl.verify ⟨([1, 5] : Hash).set 0 9, pk0, ⟨7, [1, 5]⟩⟩ [5] =
      Except.error ChainError.hashMismatch :=
  hsv_verify_spec.2 ⟨[1, 5], pk0, ⟨7, [1, 5]⟩⟩ [5] 0 9 rfl (by decide) (by decide)

/-- C8: the header binary codec is lossless. For every wellformed header,
MarshalBinary followed by UnmarshalBinary decodes to a header structurally
equal to the original, and any decoded value has the same canonical
MarshalHash digest as the original. -/
theorem Header.marshal_roundtrip (h : Header) (hw : h.Wf) :
    Header.UnmarshalBinary h.MarshalBinary = some h ∧
      ∀ h2, Header.UnmarshalBinary h.MarshalBinary = some h2 → h2.MarshalHash = h.MarshalHash := by
  have hrt := header_unmarshal_marshal h hw
  refine ⟨hrt, fun h2 hh => ?_⟩
  rw [hrt] at hh
  simp at hh
  rw [hh]

theorem Header.marshal_roundtrip_witness :
    Header.Wf ⟨1, [2], [3], [4], 5⟩ ∧
      Header.UnmarshalBinary (Header.MarshalBinary ⟨1, [2], [3], [4], 5⟩) =
        some ⟨1, [2], [3], [4], 5⟩ :=
  ⟨by norm_num [Header.Wf], (Header.marshal_roundtrip ⟨1, [2], [3], [4], 5⟩ (by norm_num [Header.Wf])).1⟩

/-- C6: State.unmarshal never partially mutates the receiver on failure: for
every prior state and buffer, whenever decoding reports an error the receiver
keeps exactly its prior value and the error is the checkpoint decode error;
and every buffer shorter than one length element is malformed and fails. -/
theorem SQLChain.state_unmarshal_no_mutation :
    (∀ (prev : SQLChain.State) (bs : Bytes) (e : ChainError),
      (SQLChain.State.unmarshal prev bs).2 = some e →
        (SQLChain.State.unmarshal prev bs).1 = prev ∧ e = ChainError.checkpointDecode) ∧
    (∀ (prev : SQLChain.State) (bs : Bytes), bs.length < 4 →
      SQLChain.State.unmarshal prev bs = (prev, some ChainError.checkpointDecode)) := by
  constructor
  · intro prev bs e he
    cases hdec : SQLChain.State.decode bs <;>
      simp [SQLChain.State.unmarshal, hdec] at he ⊢
    exact he.symm
  · intro prev bs hlen
    have hdec : SQLChain.State.decode bs = none := by
      simp [SQLChain.State.decode, getBytes, readBE, if_neg (by omega : ¬(4 ≤ bs.length))]
    simp [SQLChain.State.unmarshal, hdec]

theorem SQLChain.state_unmarshal_no_mutation_witness :
    ([255] : Bytes).length < 4 ∧
      SQLChain.State.unmarshal ⟨[1], 2⟩ [255] = (⟨[1], 2⟩, some ChainError.checkpointDecode) :=
  ⟨by decide, SQLChain.state_unmarshal_no_mutation.2 ⟨[1], 2⟩ [255] (by decide)⟩

theorem V2.calc_foldl_no_write (init : Nat × Bool) :
    ∀ l : List V2.QueryAsTx,
      (∀ q ∈ l, q.Request.Header.QueryType ≠ V2.QueryType.WriteQuery) →
      l.foldl
        (fun acc q =>
          if q.Request.Header.QueryType = V2.QueryType.WriteQuery then
            (q.Response.LogOffset + q.Request.Payload.Queries.length, true)
          else acc)
        init = init
  | [], _ => rfl
  | q :: rest, h => by
    have hq := h q (by simp)
    simp only [List.foldl_cons, if_neg hq]
    exact V2.calc_foldl_no_write init rest (fun r hr => h r (by simp [hr]))

/-- C5: CalcNextID scans the query transactions in order and selects the last
Write transaction. When the transaction list is empty or holds no Write
transaction the result is (0, false); otherwise the result is that
log offset of that transaction plus its query count, paired with true. The concrete
test vectors follow: a single write of ten queries at offset zero yields
(10, true) and the mixed read and write sequence yields (30, true). -/
theorem V2.calcNextID_spec :
    (∀ b : V2.Block,
      (∀ q ∈ b.QueryTxs, q.Request.Header.QueryType ≠ V2.QueryType.WriteQuery) →
      b.CalcNextID = (0, false)) ∧
    (∀ (b : V2.Block) (pre : List V2.QueryAsTx) (q : V2.QueryAsTx) (post : List V2.QueryAsTx),
      b.QueryTxs = pre ++ q :: post →
      q.Request.Header.QueryType = V2.QueryType.WriteQuery →
      (∀ r ∈ post, r.Request.Header.QueryType ≠ V2.QueryType.WriteQuery) →
      b.CalcNextID = (q.Response.LogOffset + q.Request.Payload.Queries.length, true)) ∧
    V2.Block.CalcNextID ⟨[]⟩ = (0, false) ∧
    V2.Block.CalcNextID ⟨[V2.readTx 0 10]⟩ = (0, false) ∧
    V2.Block.CalcNextID ⟨[V2.writeTx 0 10]⟩ = (10, true) ∧
    V2.Block.CalcNextID ⟨[V2.readTx 0 10, V2.writeTx 0 10, V2.readTx 10 10, V2.writeTx 10 20]⟩ =
      (30, true) := by
  refine ⟨?_, ?_, by decide, by decide, by decide, by decide⟩
  · intro b h
    exact V2.calc_foldl_no_write (0, false) b.QueryTxs h
  · intro b pre q post hsplit hq hpost
    unfold V2.Block.CalcNextID
    rw [hsplit, List.foldl_append, List.foldl_cons, if_pos hq]
    exact V2.calc_foldl_no_write _ post hpost

theorem V2.calcNextID_spec_witness :
    (∀ q ∈ (V2.Block.mk [V2.readTx 0 10]).QueryTxs,
        q.Request.Header.QueryType ≠ V2.QueryType.WriteQuery) ∧
      V2.Block.CalcNextID ⟨[V2.readTx 0 10]⟩ = (0, false) ∧
      V2.Block.CalcNextID ⟨[V2.readTx 0 10, V2.writeTx 0 10, V2.readTx 10 10, V2.writeTx 10 20]⟩ =
        (30, true) :=
  ⟨by decide, V2.calcNextID_spec.1 ⟨[V2.readTx 0 10]⟩ (by decide),
    V2.calcNextID_spec.2.1 ⟨[V2.readTx 0 10, V2.writeTx 0 10, V2.readTx 10 10, V2.writeTx 10 20]⟩
      [V2.readTx 0 10, V2.writeTx 0 10, V2.readTx 10 10] (V2.writeTx 10 20) [] rfl rfl
      (by decide)⟩

theorem SQLChain.pushAll_cons_ok (c c2 : SQLChain.Chain) (sh : SignedHeader)
    (rest : List SignedHeader) (h : c.PushBlock sh = (c2, none)) :
    SQLChain.pushAll c (sh :: rest) = SQLChain.pushAll c2 rest := by
  conv_lhs => rw [SQLChain.pushAll]
  rw [h]

theorem SQLChain.pushAll_cons_err (c c2 : SQLChain.Chain) (sh : SignedHeader)
    (rest : List SignedHeader) (e : ChainError) (h : c.PushBlock sh = (c2, some e)) :
    SQLChain.pushAll c (sh :: rest) = (c2, some e) := by
  conv_lhs => rw [SQLChain.pushAll]
  rw [h]

theorem SQLChain.pushBlock_ok (c : SQLChain.Chain) (sh : SignedHeader)
    (hp : sh.Header.ParentHash = c.state.Head)
    (hv : sh.Signature.verify sh.BlockHash sh.Signee = true) :
    c.PushBlock sh =
      (⟨⟨sh.BlockHash, c.state.Height + 1⟩,
        ⟨some (SQLChain.State.marshal ⟨sh.BlockHash, c.state.Height + 1⟩),
          c.store.blocks ++ [sh]⟩⟩, none) := by
  simp [SQLChain.Chain.PushBlock, hp, hv]

theorem SQLChain.pushAll_valid :
    ∀ (shs : List SignedHeader) (c : SQLChain.Chain),
      SQLChain.validSeq c.state.Head shs = true →
      (SQLChain.pushAll c shs).2 = none ∧
        (SQLChain.pushAll c shs).1.state.Height = c.state.Height + shs.length
  | [], _, _ => ⟨rfl, rfl⟩
  | sh :: rest, c, h => by
    simp only [SQLChain.validSeq, Bool.and_eq_true, beq_iff_eq] at h
    obtain ⟨⟨hp, hv⟩, hrest⟩ := h
    have hstep := SQLChain.pushAll_cons_ok c _ sh rest (SQLChain.pushBlock_ok c sh hp hv)
    have ih := SQLChain.pushAll_valid rest
      ⟨⟨sh.BlockHash, c.state.Height + 1⟩,
        ⟨some (SQLChain.State.marshal ⟨sh.BlockHash, c.state.Height + 1⟩),
          c.store.blocks ++ [sh]⟩⟩ (by simpa using hrest)
    rw [hstep]
    refine ⟨ih.1, ?_⟩
    rw [ih.2]
    simp
    omega

theorem SQLChain.newChain_ok (kms : List SQLChain.KmsEntry) (d : Nat) (g : Block)
    (c0 : SQLChain.Chain) (h : SQLChain.NewChain kms d g = Except.ok c0) :
    c0 = ⟨⟨g.SignedHeader.BlockHash, 0⟩,
      ⟨some (SQLChain.State.marshal ⟨g.SignedHeader.BlockHash, 0⟩), [g.SignedHeader]⟩⟩ := by
  unfold SQLChain.NewChain at h
  cases hv : SQLChain.verifyGenesis kms d g with
  | error e =>
    rw [hv] at h
    simp at h
  | ok u =>
    cases u
    rw [hv] at h
    simp at h
    exact h.symm

/-- C1: PushBlock succeeds only when the parent hash of the pushed header equals
the current head. When the parent hash differs it fails with ForkOrOutOfOrder
and the chain, in particular its State checkpoint, is unchanged; on success
the head becomes the pushed block hash and the height increments by one; and
pushing fifty sequential valid blocks onto a fresh genesis chain created by
NewChain, whose checkpoint starts at height zero, yields height fifty. -/
theorem SQLChain.pushBlock_spec :
    (∀ (c : SQLChain.Chain) (sh : SignedHeader), sh.Header.ParentHash ≠ c.state.Head →
      c.PushBlock sh = (c, some ChainError.forkOrOutOfOrder)) ∧
    (∀ (c : SQLChain.Chain) (sh : SignedHeader), sh.Header.ParentHash = c.state.Head →
      sh.Signature.verify sh.BlockHash sh.Signee = true →
      (c.PushBlock sh).2 = none ∧ (c.PushBlock sh).1.state.Head = sh.BlockHash ∧
        (c.PushBlock sh).1.state.Height = c.state.Height + 1) ∧
    (∀ (kms : List SQLChain.KmsEntry) (d : Nat) (g : Block) (c0 : SQLChain.Chain)
        (shs : List SignedHeader),
      SQLChain.NewChain kms d g = Except.ok c0 →
      SQLChain.validSeq c0.state.Head shs = true →
      shs.length = 50 →
      (SQLChain.pushAll c0 shs).2 = none ∧ (SQLChain.pushAll c0 shs).1.state.Height = 50) := by
  refine ⟨?_, ?_, ?_⟩
  · intro c sh hp
    simp [SQLChain.Chain.PushBlock, hp]
  · intro c sh hp hv
    rw [SQLChain.pushBlock_ok c sh hp hv]
    exact ⟨rfl, rfl, rfl⟩
  · intro kms d g c0 shs hnew hseq hlen
    have hvalid := SQLChain.pushAll_valid shs c0 hseq
    have hc0 := SQLChain.newChain_ok kms d g c0 hnew
    refine ⟨hvalid.1, ?_⟩
    rw [hvalid.2, hc0, hlen]

theorem SQLChain.pushBlock_spec_witness :
    SQLChain.NewChain kms0 0 genesis0 = Except.ok chain0 ∧
      SQLChain.validSeq chain0.state.Head (mkSeq 50 [9]) = true ∧
      (mkSeq 50 [9]).length = 50 ∧
      (SQLChain.pushAll chain0 (mkSeq 50 [9])).2 = none ∧
      (SQLChain.pushAll chain0 (mkSeq 50 [9])).1.state.Height = 50 := by
  refine ⟨rfl, by decide, by decide, ?_⟩
  exact SQLChain.pushBlock_spec.2.2 kms0 0 genesis0 chain0 (mkSeq 50 [9]) rfl (by decide) (by decide)

theorem SQLChain.decode_marshal (st : SQLChain.State) (h : st.Head.length < 256 ^ 4) :
    SQLChain.State.decode st.marshal = some st := by
  unfold SQLChain.State.marshal SQLChain.State.decode
  rw [getBytes_putBytes _ _ h]
  simp [leVal_natBytesLE]

theorem SQLChain.pushAll_inv :
    ∀ (shs : List SignedHeader) (c : SQLChain.Chain),
      (∀ sh ∈ shs, sh.BlockHash.length < 256 ^ 4) →
      c.store.checkpoint = some c.state.marshal →
      c.state.Head.length < 256 ^ 4 →
      (SQLChain.pushAll c shs).2 = none →
      ((SQLChain.pushAll c shs).1.store.checkpoint =
          some (SQLChain.pushAll c shs).1.state.marshal ∧
        (SQLChain.pushAll c shs).1.state.Head.length < 256 ^ 4 ∧
        (SQLChain.pushAll c shs).1.store.blocks = c.store.blocks ++ shs)
  | [], c, _, hcp, hhd, _ => ⟨hcp, hhd, by simp [SQLChain.pushAll]⟩
  | sh :: rest, c, hwf, hcp, hhd, hok => by
    by_cases hp : sh.Header.ParentHash = c.state.Head
    · by_cases hv : sh.Signature.verify sh.BlockHash sh.Signee = true
      · have hstep := SQLChain.pushAll_cons_ok c _ sh rest (SQLChain.pushBlock_ok c sh hp hv)
        rw [hstep] at hok ⊢
        have ih := SQLChain.pushAll_inv rest
          ⟨⟨sh.BlockHash, c.state.Height + 1⟩,
            ⟨some (SQLChain.State.marshal ⟨sh.BlockHash, c.state.Height + 1⟩),
              c.store.blocks ++ [sh]⟩⟩
          (fun s hs => hwf s (by simp [hs])) rfl (hwf sh (by simp)) hok
        refine ⟨ih.1, ih.2.1, ?_⟩
        rw [ih.2.2]
        simp
      · have hpush : c.PushBlock sh = (c, some ChainError.signVerification) := by
          simp [SQLChain.Chain.PushBlock, hp, hv]
        have hstep := SQLChain.pushAll_cons_err c c sh rest _ hpush
        rw [hstep] at hok
        simp at hok
    · have hpush : c.PushBlock sh = (c, some ChainError.forkOrOutOfOrder) := by
        simp [SQLChain.Chain.PushBlock, hp]
      have hstep := SQLChain.pushAll_cons_err c c sh rest _ hpush
      rw [hstep] at hok
      simp at hok

/-- C9: for a chain built by NewChain from a genesis block and any sequence of
successful PushBlock calls, reloading from the same durable store with
LoadChain reproduces a chain with an identical State checkpoint and the same
persisted block sequence, namely the genesis header followed by the pushed
headers. -/
theorem SQLChain.loadChain_roundtrip
    (kms : List SQLChain.KmsEntry) (d : Nat) (g : Block) (c0 : SQLChain.Chain)
    (shs : List SignedHeader)
    (hg : g.SignedHeader.BlockHash.length < 256 ^ 4)
    (hshs : ∀ sh ∈ shs, sh.BlockHash.length < 256 ^ 4)
    (hnew : SQLChain.NewChain kms d g = Except.ok c0)
    (hok : (SQLChain.pushAll c0 shs).2 = none) :
    SQLChain.LoadChain (SQLChain.pushAll c0 shs).1.store =
        Except.ok ⟨(SQLChain.pushAll c0 shs).1.state, (SQLChain.pushAll c0 shs).1.store⟩ ∧
      (SQLChain.pushAll c0 shs).1.store.blocks = g.SignedHeader :: shs := by
  have hc0 := SQLChain.newChain_ok kms d g c0 hnew
  subst hc0
  have hinv := SQLChain.pushAll_inv shs _ hshs rfl (by simpa using hg) hok
  obtain ⟨hcp, hhd, hbl⟩ := hinv
  constructor
  · unfold SQLChain.LoadChain
    rw [hcp]
    simp [SQLChain.decode_marshal _ hhd]
  · rw [hbl]
    simp

theorem SQLChain.loadChain_roundtrip_witness :
    (genesis0.SignedHeader.BlockHash.length < 256 ^ 4) ∧
      (SQLChain.pushAll chain0 (mkSeq 2 [9])).2 = none ∧
      SQLChain.LoadChain (SQLChain.pushAll chain0 (mkSeq 2 [9])).1.store =
        Except.ok
          ⟨(SQLChain.pushAll chain0 (mkSeq 2 [9])).1.state,
            (SQLChain.pushAll chain0 (mkSeq 2 [9])).1.store⟩ ∧
      (SQLChain.pushAll chain0 (mkSeq 2 [9])).1.store.blocks =
        genesis0.SignedHeader :: mkSeq 2 [9] := by
  have h := SQLChain.loadChain_roundtrip kms0 0 genesis0 chain0 (mkSeq 2 [9])
    (by decide) (by decide) rfl (by decide)
  exact ⟨by decide, by decide, h.1, h.2⟩

/-- C4 (amended): genesis verification succeeds exactly for a block whose
producer id is registered and bound to the signee public key through a
difficulty-satisfying proof-of-work nonce, with a valid signature. It fails
with GenesisVerification for every block whose producer lacks a registered
binding (in particular every non-genesis block) and for every block whose
signee public key is substituted for another; a block whose signature is
tampered with fails with the signature error class SignVerification rather
than GenesisVerification. -/
theorem SQLChain.verifyAsGenesis_spec :
    (∀ (kms : List SQLChain.KmsEntry) (d : Nat) (b : Block),
      SQLChain.verifyGenesis kms d b = Except.ok () ↔
        ∃ e, SQLChain.kmsLookup kms b.SignedHeader.Header.Producer = some e ∧
          e.pubKey = b.SignedHeader.Signee ∧
          b.SignedHeader.Header.Producer =
            SQLChain.hashBlock (SQLChain.pubKeyBytes e.pubKey) e.nonce ∧
          d ≤ SQLChain.hashDifficulty b.SignedHeader.Header.Producer ∧
          b.SignedHeader.Signature.verify b.SignedHeader.BlockHash b.SignedHeader.Signee = true) ∧
    (∀ (kms : List SQLChain.KmsEntry) (d : Nat) (b : Block),
      SQLChain.kmsLookup kms b.SignedHeader.Header.Producer = none →
      SQLChain.verifyGenesis kms d b = Except.error ChainError.genesisVerification) ∧
    (∀ (kms : List SQLChain.KmsEntry) (d : Nat) (b : Block) (e : SQLChain.KmsEntry),
      SQLChain.kmsLookup kms b.SignedHeader.Header.Producer = some e →
      e.pubKey ≠ b.SignedHeader.Signee →
      SQLChain.verifyGenesis kms d b = Except.error ChainError.genesisVerification) ∧
    (∀ (kms : List SQLChain.KmsEntry) (d : Nat) (b : Block) (e : SQLChain.KmsEntry),
      SQLChain.kmsLookup kms b.SignedHeader.Header.Producer = some e →
      e.pubKey = b.SignedHeader.Signee →
      b.SignedHeader.Header.Producer =
        SQLChain.hashBlock (SQLChain.pubKeyBytes e.pubKey) e.nonce →
      d ≤ SQLChain.hashDifficulty b.SignedHeader.Header.Producer →
      b.SignedHeader.Signature.verify b.SignedHeader.BlockHash b.SignedHeader.Signee = false →
      SQLChain.verifyGenesis kms d b = Except.error ChainError.signVerification) := by
  refine ⟨?_, ?_, ?_, ?_⟩
  · intro kms d b
    unfold SQLChain.verifyGenesis SQLChain.verifyGenesisHeader
    cases hl : SQLChain.kmsLookup kms b.SignedHeader.Header.Producer with
    | none => simp
    | some e =>
      simp only []
      constructor
      · intro h
        split_ifs at h with h1 h2 h3
        unfold SignedHeader.Verify at h
        split_ifs at h with h4
        exact ⟨e, rfl, h1, h2, by omega, h4⟩
      · rintro ⟨e2, he2, h1, h2, h3, h4⟩
        injection he2 with he
        subst he
        rw [if_neg (not_not_intro h1), if_neg (not_not_intro h2), if_neg (Nat.not_lt.mpr h3)]
        unfold SignedHeader.Verify
        rw [if_neg (not_not_intro h4)]
  · intro kms d b hl
    unfold SQLChain.verifyGenesis SQLChain.verifyGenesisHeader
    rw [hl]
  · intro kms d b e hl h1
    unfold SQLChain.verifyGenesis SQLChain.verifyGenesisHeader
    rw [hl]
    simp only []
    rw [if_pos h1]
  · intro kms d b e hl h1 h2 h3 h4
    unfold SQLChain.verifyGenesis SQLChain.verifyGenesisHeader
    rw [hl]
    simp only []
    rw [if_neg (not_not_intro h1), if_neg (not_not_intro h2), if_neg (Nat.not_lt.mpr h3)]
    unfold SignedHeader.Verify
    rw [if_pos (by simp [h4])]

theorem SQLChain.verifyAsGenesis_counterexample :
    SQLChain.verifyGenesis kms0 0 genesisTampered = Except.error ChainError.signVerification ∧
      SQLChain.verifyGenesis kms0 0 genesisTampered ≠
        Except.error ChainError.genesisVerification := by
  have h : SQLChain.verifyGenesis kms0 0 genesisTampered =
      Except.error ChainError.signVerification := rfl
  refine ⟨h, ?_⟩
  rw [h]
  simp

theorem SQLChain.verifyAsGenesis_spec_witness :
    SQLChain.verifyGenesis kms0 0 genesis0 = Except.ok () ∧
      SQLChain.verifyGenesis kms0 0 genesisTampered =
        Except.error ChainError.signVerification :=
  ⟨(SQLChain.verifyAsGenesis_spec.1 kms0 0 genesis0).mpr
      ⟨⟨producer0, 0, pk0⟩, by decide, by decide, by decide, by decide, by decide⟩,
    SQLChain.verifyAsGenesis_spec.2.2.2 kms0 0 genesisTampered ⟨producer0, 0, pk0⟩
      (by decide) (by decide) (by decide) (by decide) (by decide)⟩
